import Mathlib

/-!
Verification of the filesystem-synchronization core (`gen/build/src/out.rs`).

Paths are embedded as the sequence of components that Rust's `Path::iter`
produces on Unix: the root directory is the component `"/"`, normal
components are their strings, `".."` components are kept, and `"."`
components are dropped by the component iterator (except as the leading
component of a relative path).  A path is absolute exactly when its first
component is `"/"`.

The effectful operations (`write`, `symlink_file`, `symlink_dir`,
`best_effort_remove`) are embedded as pure functions over an explicit
"world" record holding the outcome of each platform primitive they invoke
(existence check, read, create_dir_all, write, symlink creation, removal).
A Rust panic (`unwrap`/`expect`/`assert!`) is modelled as `Option.none`;
a returned `Result` is modelled as `Except Error Unit`.  The
`CARGO_TARGET_DIR` environment signal is modelled as an explicitly passed
boolean, as the design notes of the specification prescribe.
-/

namespace CxxOut

/-- `Path::is_absolute` on Unix: the first component is the root `"/"`. -/
def is_absolute (p : List String) : Bool :=
  p.head? == some "/"

/-- `Path::is_relative`. -/
def is_relative (p : List String) : Bool :=
  !(is_absolute p)

/-- `path_contains_intermediate_components`: some component equals `".."`. -/
def path_contains_intermediate_components (p : List String) : Bool :=
  p.any (fun segment => segment == "..")

/-- `shared_root`: push components while the two iterators agree, stop at the
first divergence or when the left iterator is exhausted. -/
def shared_root : List String → List String → List String
  | l :: ls, r :: rs => if l = r then l :: shared_root ls rs else []
  | _, _ => []

/-- `Path::strip_prefix` at the component level: remove the leading
components `pre` from `p`, or fail if `pre` does not lead `p`. -/
def stripLead : List String → List String → Option (List String)
  | [], p => some p
  | _ :: _, [] => none
  | a :: xs, b :: ys => if a = b then stripLead xs ys else none

/-- `Path::parent` (also the test `PathBuf::pop` performs): `none` for the
empty path and for the root, otherwise drop the last component. -/
def parent? (p : List String) : Option (List String) :=
  if p = [] ∨ p = ["/"] then none else some p.dropLast

/-- The `while link != shared_root { push ".."; assert!(link.pop()) }` loop:
count the pops needed to reach `sr` from `link`, `none` when `pop`
returns false first (the `assert!` panic).  The fuel argument only bounds
the recursion; `link.length + 1` is always enough, because every
iteration shortens `link`. -/
def climbAux (sr : List String) : Nat → List String → Option Nat
  | 0, _ => none
  | fuel + 1, link =>
    if link = sr then some 0
    else
      match parent? link with
      | none => none
      | some l => (climbAux sr fuel l).map (fun n => n + 1)

/-- The counting loop of `best_effort_relativize_symlink`, at full fuel. -/
def climb (sr link : List String) : Option Nat :=
  climbAux sr (link.length + 1) link

/-- `best_effort_relativize_symlink`.  `cargo_target_dir_set` models
`env::var_os("CARGO_TARGET_DIR").is_some()`.  The result is `none` when the
Rust code panics (`expect` on `strip_prefix`, `expect` on `parent`, or the
`assert!` in the pop loop). -/
def best_effort_relativize_symlink (cargo_target_dir_set : Bool)
    (original link : List String) : Option (List String) :=
  if cargo_target_dir_set || is_relative original || is_relative link
      || path_contains_intermediate_components original
      || path_contains_intermediate_components link then
    some original
  else if shared_root original link = [] then
    some original
  else
    match stripLead (shared_root original link) original with
    | none => none
    | some relative_original =>
      match parent? link with
      | none => none
      | some link_parent =>
        (climb (shared_root original link) link_parent).map
          (fun n => List.replicate n ".." ++ relative_original)

/-- The kind of a platform I/O error (`io::ErrorKind`), reduced to the one
distinction `out.rs` inspects. -/
inductive ErrorKind
  | alreadyExists
  | otherError
deriving DecidableEq

/-- A platform I/O error: its kind plus a tag distinguishing error values
of the same kind. -/
structure IoError where
  kind : ErrorKind
  tag : Nat
deriving DecidableEq

/-- `crate::error::Error`, restricted to the `Fs` constructor `out.rs` uses. -/
inductive Error
  | Fs (err : IoError)
deriving DecidableEq

/-- Outcomes of the platform primitives one call to `symlink_file` or
`symlink_dir` consumes: whether `fs::exists(link)` holds, the error of
`fs::create_dir_all(parent)` if it fails, and the error of the
alias-creation primitive if it fails. -/
structure LinkWorld where
  linkExists : Bool
  createDirError : Option IoError
  primitiveError : Option IoError
deriving DecidableEq

/-- `symlink_file`: relativize, remove or prepare the parent directory, then
invoke `paths::symlink_or_copy`, reclassifying an `AlreadyExists` failure
as success and otherwise preferring the recorded `create_dir_all` error. -/
def symlink_file (cargo_target_dir_set : Bool) (w : LinkWorld)
    (original link : List String) : Option (Except Error Unit) :=
  match best_effort_relativize_symlink cargo_target_dir_set original link with
  | none => none
  | some _relativized =>
    match (if w.linkExists then some none
           else (parent? link).map (fun _ => w.createDirError) :
           Option (Option IoError)) with
    | none => none
    | some create_dir_error =>
      match w.primitiveError with
      | none => some (Except.ok ())
      | some err =>
        if err.kind == ErrorKind.alreadyExists then some (Except.ok ())
        else some (Except.error (Error.Fs (create_dir_error.getD err)))

/-- `symlink_dir`: same shape as `symlink_file` but invoking
`fs::symlink_dir`; its error match has no `AlreadyExists` branch. -/
def symlink_dir (cargo_target_dir_set : Bool) (w : LinkWorld)
    (original link : List String) : Option (Except Error Unit) :=
  match best_effort_relativize_symlink cargo_target_dir_set original link with
  | none => none
  | some _relativized =>
    match (if w.linkExists then some none
           else (parent? link).map (fun _ => w.createDirError) :
           Option (Option IoError)) with
    | none => none
    | some create_dir_error =>
      match w.primitiveError with
      | none => some (Except.ok ())
      | some err => some (Except.error (Error.Fs (create_dir_error.getD err)))

/-- Outcomes of the platform primitives one call to `write` consumes. -/
structure WriteWorld where
  pathExists : Bool
  readResult : Option (List Nat)
  createDirError : Option IoError
  writeError : Option IoError
deriving DecidableEq

/-- The filesystem-mutating steps `write` may attempt, in order. -/
inductive FsEffect
  | remove
  | createDir
  | writeFile
deriving DecidableEq

/-- The final `match fs::write(path, content)` of `write`: on failure prefer
the recorded `create_dir_all` error. -/
def writeOutcome (create_dir_error : Option IoError)
    (write_error : Option IoError) : Except Error Unit :=
  match write_error with
  | none => Except.ok ()
  | some err => Except.error (Error.Fs (create_dir_error.getD err))

/-- `write`: return immediately when the existing readable content equals
`content`; otherwise remove (best effort) or create the parent chain, then
write.  The second result component is the list of mutation steps
attempted. -/
def write (w : WriteWorld) (path : List String) (content : List Nat) :
    Option (Except Error Unit × List FsEffect) :=
  if w.pathExists then
    match w.readResult with
    | some existing =>
      if existing = content then some (Except.ok (), [])
      else some (writeOutcome none w.writeError,
                 [FsEffect.remove, FsEffect.writeFile])
    | none => some (writeOutcome none w.writeError,
                    [FsEffect.remove, FsEffect.writeFile])
  else
    match parent? path with
    | none => none
    | some _parent =>
      some (writeOutcome w.createDirError w.writeError,
            [FsEffect.createDir, FsEffect.writeFile])

/-- The classification of the node occupying a path, at observation time. -/
inductive NodeKind
  | absent
  | regularFile
  | directory
  | symlinkToFile
  | symlinkToDir
  | danglingSymlink
deriving DecidableEq

/-- `fs::symlink_metadata(path).map(|m| m.is_dir())`: classify the node
itself, never following a symbolic link; `none` when no node exists. -/
def symlink_metadata_is_dir : NodeKind → Option Bool
  | NodeKind.absent => none
  | NodeKind.regularFile => some false
  | NodeKind.directory => some true
  | NodeKind.symlinkToFile => some false
  | NodeKind.symlinkToDir => some false
  | NodeKind.danglingSymlink => some false

/-- `fs::metadata(path).map(|m| m.is_dir())`: classify following symbolic
links; `none` when no node exists or the link dangles. -/
def metadata_is_dir : NodeKind → Option Bool
  | NodeKind.absent => none
  | NodeKind.regularFile => some false
  | NodeKind.directory => some true
  | NodeKind.symlinkToFile => some false
  | NodeKind.symlinkToDir => some true
  | NodeKind.danglingSymlink => none

/-- The node at the path given to `best_effort_remove`, together with the
failure outcome of each removal primitive (the function discards both). -/
structure RemoveWorld where
  node : NodeKind
  removeFileFails : Bool
  removeDirAllFails : Bool
deriving DecidableEq

/-- The removal primitives `best_effort_remove` can attempt. -/
inductive RemoveAction
  | removeFile
  | removeDirAll
deriving DecidableEq

/-- `best_effort_remove`: the list of removal attempts it performs, in
order.  The function has no error channel: every primitive failure is
discarded (`let _ = ...`), matching the unit-returning Rust signature.
On Windows it classifies by `fs::metadata` (following links) and retries a
dangling symlink both ways; elsewhere it classifies by
`fs::symlink_metadata` (not following links). -/
def best_effort_remove (windows : Bool) (w : RemoveWorld) : List RemoveAction :=
  if windows then
    match metadata_is_dir w.node with
    | some true => [RemoveAction.removeDirAll]
    | some false => [RemoveAction.removeFile]
    | none =>
      match symlink_metadata_is_dir w.node with
      | some _ =>
        if w.removeDirAllFails then
          [RemoveAction.removeDirAll, RemoveAction.removeFile]
        else [RemoveAction.removeDirAll]
      | none => []
  else
    match symlink_metadata_is_dir w.node with
    | some true => [RemoveAction.removeDirAll]
    | some false => [RemoveAction.removeFile]
    | none => []

/-- `segPre p q` holds when the components `p` lead the components `q`
(component-wise path-prefix, as `Path::starts_with` checks). -/
def segPre : List String → List String → Bool
  | [], _ => true
  | _ :: _, [] => false
  | a :: xs, b :: ys => a == b && segPre xs ys

/-- Resolve the `".."` components of a joined path left to right, each one
cancelling the component before it (the normalization a symlink resolver
performs on a relative link target). -/
def normalizeDotDot (p : List String) : List String :=
  p.foldl (fun acc c => if c = ".." then acc.dropLast else acc ++ [c]) []

/-- Split a character list at `'/'` separators, accumulating the current
segment in reverse. -/
def splitSlashAux : List Char → List Char → List String
  | [], acc => [String.mk acc.reverse]
  | c :: cs, acc =>
    if c = '/' then String.mk acc.reverse :: splitSlashAux cs []
    else splitSlashAux cs (c :: acc)

/-- Parse a Unix path string into the components `Path::iter` yields:
split on `/`, drop empty and `"."` segments, keep a root `"/"` component
for an absolute path and a leading `"."` for a `./`-prefixed relative
path. -/
def parsePath (s : String) : List String :=
  let segs := splitSlashAux s.toList []
  let keep := segs.filter (fun t => !(t == "") && !(t == "."))
  match s.toList with
  | '/' :: _ => "/" :: keep
  | _ => if segs.head? = some "." then "." :: keep else keep

theorem segPre_iff_append : ∀ p q : List String, segPre p q = true ↔ ∃ t, q = p ++ t := by
  intro p
  induction p with
  | nil =>
    intro q
    simp [segPre]
  | cons a xs ih =>
    intro q
    cases q with
    | nil => simp [segPre]
    | cons b ys =>
      simp only [segPre, Bool.and_eq_true, beq_iff_eq]
      constructor
      · rintro ⟨rfl, h⟩
        obtain ⟨t, rfl⟩ := (ih ys).mp h
        exact ⟨t, rfl⟩
      · rintro ⟨t, ht⟩
        injection ht with h1 h2
        subst h1
        subst h2
        exact ⟨rfl, (ih _).mpr ⟨t, rfl⟩⟩

theorem stripLead_eq_some : ∀ p q t : List String, stripLead p q = some t ↔ q = p ++ t := by
  intro p
  induction p with
  | nil =>
    intro q t
    simp [stripLead, eq_comm]
  | cons a xs ih =>
    intro q t
    cases q with
    | nil => simp [stripLead]
    | cons b ys =>
      by_cases hab : a = b
      · subst hab
        simp [stripLead, ih]
      · simp only [stripLead, if_neg hab]
        constructor
        · intro h
          exact absurd h (by simp)
        · intro h
          injection h with h1 _
          exact absurd h1.symm hab

theorem shared_root_cons (a : String) (xs ys : List String) :
    shared_root (a :: xs) (a :: ys) = a :: shared_root xs ys := by
  simp [shared_root]

theorem shared_root_left : ∀ o l : List String, ∃ t, o = shared_root o l ++ t := by
  intro o
  induction o with
  | nil =>
    intro l
    exact ⟨[], by cases l <;> simp [shared_root]⟩
  | cons a xs ih =>
    intro l
    cases l with
    | nil => exact ⟨a :: xs, by simp [shared_root]⟩
    | cons b ys =>
      by_cases hab : a = b
      · subst hab
        obtain ⟨t, ht⟩ := ih ys
        exact ⟨t, by rw [shared_root_cons]; simpa using ht⟩
      · exact ⟨a :: xs, by simp [shared_root, hab]⟩

theorem shared_root_right : ∀ o l : List String, ∃ t, l = shared_root o l ++ t := by
  intro o
  induction o with
  | nil =>
    intro l
    exact ⟨l, by cases l <;> simp [shared_root]⟩
  | cons a xs ih =>
    intro l
    cases l with
    | nil => exact ⟨[], by simp [shared_root]⟩
    | cons b ys =>
      by_cases hab : a = b
      · subst hab
        obtain ⟨t, ht⟩ := ih ys
        exact ⟨t, by rw [shared_root_cons]; simpa using ht⟩
      · exact ⟨b :: ys, by simp [shared_root, hab]⟩

theorem shared_root_max : ∀ p o l : List String, segPre p o = true → segPre p l = true →
    segPre p (shared_root o l) = true := by
  intro p
  induction p with
  | nil => intro o l _ _; rfl
  | cons a xs ih =>
    intro o l ho hl
    cases o with
    | nil => exact absurd ho (by simp [segPre])
    | cons b ys =>
      cases l with
      | nil => exact absurd hl (by simp [segPre])
      | cons c zs =>
        simp only [segPre, Bool.and_eq_true, beq_iff_eq] at ho hl
        obtain ⟨rfl, ho2⟩ := ho
        obtain ⟨rfl, hl2⟩ := hl
        rw [shared_root_cons]
        simp [segPre, ih ys zs ho2 hl2]

theorem parent?_eq_some {p t : List String} :
    parent? p = some t ↔ p ≠ [] ∧ p ≠ ["/"] ∧ t = p.dropLast := by
  constructor
  · intro h
    unfold parent? at h
    split at h
    · exact absurd h (by simp)
    next hcond =>
      push_neg at hcond
      injection h with h1
      exact ⟨hcond.1, hcond.2, h1.symm⟩
  · rintro ⟨h1, h2, rfl⟩
    unfold parent?
    rw [if_neg (not_or.mpr ⟨h1, h2⟩)]

theorem climbAux_sound (sr : List String) (hsr : sr ≠ []) :
    ∀ fuel t link, link = sr ++ t → link.length < fuel →
      climbAux sr fuel link = some t.length := by
  intro fuel
  induction fuel with
  | zero => intro t link _ hlen; exact absurd hlen (by omega)
  | succ f ih =>
    intro t link hdecomp hlen
    subst hdecomp
    unfold climbAux
    by_cases heq : sr ++ t = sr
    · have ht : t = [] := by
        have hlen2 : (sr ++ t).length = sr.length := by rw [heq]
        simp only [List.length_append] at hlen2
        exact List.length_eq_zero.mp (by omega)
      rw [if_pos heq, ht]
      rfl
    · rw [if_neg heq]
      have ht : t ≠ [] := by rintro rfl; simp at heq
      have hsr1 : 1 ≤ sr.length := by
        cases sr with
        | nil => exact absurd rfl hsr
        | cons _ _ => simp
      have ht1 : 1 ≤ t.length := by
        cases t with
        | nil => exact absurd rfl ht
        | cons _ _ => simp
      have hne : sr ++ t ≠ [] := by simp [hsr]
      have hroot : sr ++ t ≠ ["/"] := by
        intro hcontra
        have := congrArg List.length hcontra
        simp only [List.length_append] at this
        simp at this
        omega
      have hp : parent? (sr ++ t) = some (sr ++ t.dropLast) := by
        unfold parent?
        rw [if_neg (not_or.mpr ⟨hne, hroot⟩),
            List.dropLast_append_of_ne_nil sr ht]
      rw [hp]
      have hlen' : (sr ++ t.dropLast).length < f := by
        simp only [List.length_append, List.length_dropLast] at hlen ⊢
        omega
      show (climbAux sr f (sr ++ t.dropLast)).map (fun n => n + 1) = some t.length
      rw [ih t.dropLast (sr ++ t.dropLast) rfl hlen']
      have hfin : t.dropLast.length + 1 = t.length := by
        simp only [List.length_dropLast]
        omega
      simp only [Option.map_some', hfin]

theorem climbAux_some_inv (sr : List String) :
    ∀ fuel link n, climbAux sr fuel link = some n →
      ∃ t, link = sr ++ t ∧ n = t.length := by
  intro fuel
  induction fuel with
  | zero => intro link n h; exact absurd h (by simp [climbAux])
  | succ f ih =>
    intro link n h
    unfold climbAux at h
    split at h
    next heq =>
      injection h with h1
      exact ⟨[], by simp [heq], by simp [h1.symm]⟩
    next heq =>
      cases hp : parent? link with
      | none => rw [hp] at h; exact absurd h (by simp)
      | some l =>
        rw [hp] at h
        rw [Option.map_eq_some'] at h
        obtain ⟨m, hm, hn⟩ := h
        obtain ⟨t', ht', hm'⟩ := ih l m hm
        obtain ⟨hne, _hroot, hdrop⟩ := parent?_eq_some.mp hp
        have hlink : l ++ [link.getLast hne] = link := by
          rw [hdrop]
          exact List.dropLast_append_getLast hne
        refine ⟨t' ++ [link.getLast hne], ?_, ?_⟩
        · calc link = l ++ [link.getLast hne] := hlink.symm
            _ = (sr ++ t') ++ [link.getLast hne] := by rw [ht']
            _ = sr ++ (t' ++ [link.getLast hne]) := List.append_assoc _ _ _
        · simp [← hn, hm']

theorem climb_eq_some {sr t link : List String} (hsr : sr ≠ []) (h : link = sr ++ t) :
    climb sr link = some t.length :=
  climbAux_sound sr hsr (link.length + 1) t link h (Nat.lt_succ_self _)

theorem climb_some_inv {sr link : List String} {n : Nat} (h : climb sr link = some n) :
    ∃ t, link = sr ++ t ∧ n = t.length :=
  climbAux_some_inv sr (link.length + 1) link n h

theorem is_absolute_shape {p : List String} (h : is_absolute p = true) :
    ∃ t, p = "/" :: t := by
  cases p with
  | nil => simp [is_absolute] at h
  | cons a xs =>
    simp only [is_absolute, List.head?_cons, beq_iff_eq, Option.some.injEq] at h
    exact ⟨xs, by rw [h]⟩

theorem is_relative_root_cons (t : List String) : is_relative ("/" :: t) = false := by
  simp [is_relative, is_absolute]

theorem pcic_eq_false_iff {p : List String} :
    path_contains_intermediate_components p = false ↔ ∀ c ∈ p, ¬ c = ".." := by
  simp [path_contains_intermediate_components, List.any_eq_false]

theorem foldl_step_no_dd : ∀ q acc : List String,
    (∀ c ∈ q, ¬ c = "..") →
    q.foldl (fun a c => if c = ".." then a.dropLast else a ++ [c]) acc = acc ++ q := by
  intro q
  induction q with
  | nil => intro acc _; simp
  | cons c cs ih =>
    intro acc hq
    have hc : ¬ c = ".." := hq c (by simp)
    have hcs : ∀ d ∈ cs, ¬ d = ".." := fun d hd => hq d (by simp [hd])
    simp only [List.foldl_cons]
    rw [if_neg hc, ih (acc ++ [c]) hcs]
    simp

theorem foldl_step_replicate (sr : List String) :
    ∀ t : List String,
      (List.replicate t.length "..").foldl
        (fun a c => if c = ".." then a.dropLast else a ++ [c]) (sr ++ t) = sr := by
  intro t
  induction t using List.reverseRecOn with
  | nil => simp
  | append_singleton t' x ih =>
    have hlen : (t' ++ [x]).length = t'.length + 1 := by simp
    rw [hlen, List.replicate_succ]
    simp only [List.foldl_cons]
    rw [if_pos trivial,
        show sr ++ (t' ++ [x]) = (sr ++ t') ++ [x] from (List.append_assoc _ _ _).symm,
        List.dropLast_concat]
    exact ih

/-- Evaluation of the relativization branch: with the redirection signal
absent, both paths absolute, no `".."` components, and the destination not
a component-prefix of the source, the function reaches the pop loop and
returns the relative target. -/
theorem relativize_branch (o l : List String)
    (ho : is_absolute o = true) (hl : is_absolute l = true)
    (hdo : path_contains_intermediate_components o = false)
    (hdl : path_contains_intermediate_components l = false)
    (hnp : segPre l o = false) :
    ∃ t_o t_l, o = shared_root o l ++ t_o ∧ l = shared_root o l ++ t_l ∧ t_l ≠ [] ∧
      best_effort_relativize_symlink false o l
        = some (List.replicate t_l.dropLast.length ".." ++ t_o) := by
  obtain ⟨o', rfl⟩ := is_absolute_shape ho
  obtain ⟨l', rfl⟩ := is_absolute_shape hl
  have hsr_cons : shared_root ("/" :: o') ("/" :: l')
      = "/" :: shared_root o' l' := shared_root_cons _ _ _
  have hsr_ne : shared_root ("/" :: o') ("/" :: l') ≠ [] := by
    rw [hsr_cons]; simp
  obtain ⟨t_o, hto⟩ := shared_root_left ("/" :: o') ("/" :: l')
  obtain ⟨t_l, htl⟩ := shared_root_right ("/" :: o') ("/" :: l')
  have htl_ne : t_l ≠ [] := by
    rintro rfl
    rw [List.append_nil] at htl
    have hseg : segPre ("/" :: l') ("/" :: o') = true := by
      rw [segPre_iff_append]
      exact ⟨t_o, by rw [hto, ← htl]⟩
    rw [hseg] at hnp
    exact Bool.noConfusion hnp
  refine ⟨t_o, t_l, hto, htl, htl_ne, ?_⟩
  have hl'_ne : l' ≠ [] := by
    rintro rfl
    apply htl_ne
    have hsr_nil : shared_root o' ([] : List String) = [] := by
      cases o' <;> rfl
    rw [hsr_cons, hsr_nil] at htl
    injection htl with _ h2
    simpa using h2.symm
  have hguard : (false || is_relative ("/" :: o') || is_relative ("/" :: l')
      || path_contains_intermediate_components ("/" :: o')
      || path_contains_intermediate_components ("/" :: l')) = false := by
    simp [is_relative_root_cons, hdo, hdl]
  have hstrip : stripLead (shared_root ("/" :: o') ("/" :: l')) ("/" :: o')
      = some t_o := (stripLead_eq_some _ _ _).mpr hto
  have hpar : parent? ("/" :: l') = some (("/" :: l').dropLast) := by
    apply parent?_eq_some.mpr
    refine ⟨by simp, ?_, rfl⟩
    intro hcontra
    injection hcontra with _ h2
    exact hl'_ne h2
  have hdrop : ("/" :: l').dropLast
      = shared_root ("/" :: o') ("/" :: l') ++ t_l.dropLast := by
    conv =>
      lhs
      rw [htl]
    exact List.dropLast_append_of_ne_nil _ htl_ne
  have hclimb : climb (shared_root ("/" :: o') ("/" :: l')) (("/" :: l').dropLast)
      = some t_l.dropLast.length :=
    climb_eq_some hsr_ne hdrop
  unfold best_effort_relativize_symlink
  rw [hguard]
  rw [if_neg (by simp)]
  rw [if_neg hsr_ne]
  rw [hstrip]
  show (match parent? ("/" :: l') with
    | none => none
    | some link_parent =>
      (climb (shared_root ("/" :: o') ("/" :: l')) link_parent).map
        (fun n => List.replicate n ".." ++ t_o)) = _
  rw [hpar]
  show (climb (shared_root ("/" :: o') ("/" :: l')) (("/" :: l').dropLast)).map
      (fun n => List.replicate n ".." ++ t_o) = _
  rw [hclimb]
  rfl

/-- Claim C1, amended: when the alias-creation primitive fails with an
"already exists" error, symlink_file (LinkFile) reclassifies the failure to
success whenever the call completes, but symlink_dir (LinkDirectory) does
not: whenever its call completes, in every world (destination existing or
absent, directory-creation error recorded or not), it surfaces an error,
namely the recorded directory-creation error when one was recorded (the
destination was absent and create_dir_all failed) and the already-exists
error itself otherwise — the unwrap_or of out.rs:84. -/
theorem claim_C1_already_exists :
    (∀ (c : Bool) (w : LinkWorld) (o l : List String) (res : Except Error Unit)
        (t : Nat),
        w.primitiveError = some ⟨ErrorKind.alreadyExists, t⟩ →
        symlink_file c w o l = some res → res = Except.ok ()) ∧
    (∀ (c : Bool) (w : LinkWorld) (o l : List String) (res : Except Error Unit)
        (t : Nat),
        w.primitiveError = some ⟨ErrorKind.alreadyExists, t⟩ →
        symlink_dir c w o l = some res →
        res = Except.error (Error.Fs
          ((if w.linkExists then none else w.createDirError).getD
            ⟨ErrorKind.alreadyExists, t⟩))) := by
  constructor
  · intro c w o l res t hpe h
    obtain ⟨ex, cde, pe⟩ := w
    dsimp only at hpe
    subst hpe
    cases hb : best_effort_relativize_symlink c o l with
    | none => simp [symlink_file, hb] at h
    | some tgt =>
      cases ex with
      | true =>
        simp [symlink_file, hb] at h
        exact h.symm
      | false =>
        cases hp : parent? l with
        | none => simp [symlink_file, hb, hp] at h
        | some pl =>
          simp [symlink_file, hb, hp] at h
          exact h.symm
  · intro c w o l res t hpe h
    obtain ⟨ex, cde, pe⟩ := w
    dsimp only at hpe
    subst hpe
    cases hb : best_effort_relativize_symlink c o l with
    | none => simp [symlink_dir, hb] at h
    | some tgt =>
      cases ex with
      | true =>
        simp [symlink_dir, hb] at h
        subst h
        simp
      | false =>
        cases hp : parent? l with
        | none => simp [symlink_dir, hb, hp] at h
        | some pl =>
          simp [symlink_dir, hb, hp] at h
          subst h
          simp

/-- Claim C1 counterexample: symlink_dir surfaces a concrete already-exists
failure of the directory-alias primitive as an error rather than
reclassifying it to success. -/
theorem claim_C1_counterexample :
    symlink_dir false ⟨true, none, some ⟨ErrorKind.alreadyExists, 0⟩⟩
        ["/", "a", "b"] ["/", "c", "d"]
      = some (Except.error (Error.Fs ⟨ErrorKind.alreadyExists, 0⟩)) ∧
    symlink_dir false ⟨true, none, some ⟨ErrorKind.alreadyExists, 0⟩⟩
        ["/", "a", "b"] ["/", "c", "d"] ≠ some (Except.ok ()) := by
  constructor
  · rfl
  · intro h
    exact Except.noConfusion (Option.some.inj h)

/-- Claim C1 witness: the amended theorem at concrete worlds and paths; the
symlink_dir conjunct is exercised with the destination absent and a
directory-creation error recorded, the case where that error is preferred
over the already-exists error. -/
theorem claim_C1_witness :
    symlink_file false ⟨true, none, some ⟨ErrorKind.alreadyExists, 3⟩⟩
        ["/", "a"] ["/", "b", "c"] = some (Except.ok ()) ∧
    symlink_dir false
        ⟨false, some ⟨ErrorKind.otherError, 7⟩, some ⟨ErrorKind.alreadyExists, 4⟩⟩
        ["/", "a"] ["/", "b", "c"]
      = some (Except.error (Error.Fs ⟨ErrorKind.otherError, 7⟩)) ∧
    (Except.ok () : Except Error Unit) = Except.ok () ∧
    (Except.error (Error.Fs ⟨ErrorKind.otherError, 7⟩) : Except Error Unit)
      = Except.error (Error.Fs
          ((if (false : Bool) then (none : Option IoError)
            else some ⟨ErrorKind.otherError, 7⟩).getD ⟨ErrorKind.alreadyExists, 4⟩)) := by
  refine ⟨rfl, rfl, ?_, ?_⟩
  · exact claim_C1_already_exists.1 false ⟨true, none, some ⟨ErrorKind.alreadyExists, 3⟩⟩
      ["/", "a"] ["/", "b", "c"] (Except.ok ()) 3 rfl rfl
  · exact claim_C1_already_exists.2 false
      ⟨false, some ⟨ErrorKind.otherError, 7⟩, some ⟨ErrorKind.alreadyExists, 4⟩⟩
      ["/", "a"] ["/", "b", "c"] (Except.error (Error.Fs ⟨ErrorKind.otherError, 7⟩)) 4
      rfl rfl

/-- Claim C2: when a node exists at the path and its readable content equals
the new content byte-for-byte, write returns success immediately and the
mutation trace is empty: no removal, no directory creation, no write, so the
file's content and modification state are untouched. -/
theorem claim_C2_write_unchanged (path : List String) (content : List Nat)
    (cde we : Option IoError) :
    write ⟨true, some content, cde, we⟩ path content = some (Except.ok (), []) := by
  simp [write]

/-- Claim C3, amended: for absolute paths free of ".." components, with the
output-redirection signal absent, a non-empty shared root, and the
destination not a component-prefix of the source, the result is the portion
of the source beyond the shared root prefixed by one ".." per component of
the destination's parent directory below the shared root. -/
theorem claim_C3_relative_target (o l : List String)
    (ho : is_absolute o = true) (hl : is_absolute l = true)
    (hdo : path_contains_intermediate_components o = false)
    (hdl : path_contains_intermediate_components l = false)
    (_hsr : shared_root o l ≠ [])
    (hnp : segPre l o = false) :
    best_effort_relativize_symlink false o l
      = some (List.replicate (l.dropLast.length - (shared_root o l).length) ".."
          ++ o.drop (shared_root o l).length) := by
  obtain ⟨t_o, t_l, hto, htl, htl_ne, heval⟩ :=
    relativize_branch o l ho hl hdo hdl hnp
  rw [heval]
  set sr := shared_root o l with hsrdef
  have h1 : o.drop sr.length = t_o := by
    rw [hto]
    exact List.drop_left _ _
  have h2 : l.dropLast.length - sr.length = t_l.dropLast.length := by
    have hl_len : l.length = sr.length + t_l.length := by
      rw [htl]
      simp
    have ht1 : 1 ≤ t_l.length := by
      cases t_l with
      | nil => exact absurd rfl htl_ne
      | cons _ _ => simp
    simp only [List.length_dropLast]
    omega
  rw [h1, h2]

/-- Claim C3 counterexample: with destination equal to the source (absolute,
no ".." components, redirection absent, non-empty shared root), the function
panics in the pop loop instead of returning the value the claim describes,
which at this input would be the empty relative path. -/
theorem claim_C3_counterexample :
    best_effort_relativize_symlink false ["/", "foo"] ["/", "foo"] = none ∧
    best_effort_relativize_symlink false ["/", "foo"] ["/", "foo"]
      ≠ some (List.replicate
          ((["/", "foo"] : List String).dropLast.length
            - (shared_root ["/", "foo"] ["/", "foo"]).length) ".."
          ++ (["/", "foo"] : List String).drop
              (shared_root ["/", "foo"] ["/", "foo"]).length) := by
  constructor
  · rfl
  · intro h
    exact Option.noConfusion h

/-- Claim C3 witness: the amended theorem at the specification's example,
source /foo/bar/baz and destination /foo/spam/eggs, giving ../bar/baz. -/
theorem claim_C3_witness :
    segPre ["/", "foo", "spam", "eggs"] ["/", "foo", "bar", "baz"] = false ∧
    best_effort_relativize_symlink false ["/", "foo", "bar", "baz"]
        ["/", "foo", "spam", "eggs"] = some ["..", "bar", "baz"] :=
  ⟨rfl, by
    have h := claim_C3_relative_target ["/", "foo", "bar", "baz"]
      ["/", "foo", "spam", "eggs"] rfl rfl rfl rfl (by decide) rfl
    exact h⟩

/-- Claim C4: the source is returned unchanged whenever the redirection
signal is set, either path is relative, or either path contains a ".."
component. -/
theorem claim_C4_source_unchanged (c : Bool) (o l : List String)
    (h : c = true ∨ is_relative o = true ∨ is_relative l = true
        ∨ path_contains_intermediate_components o = true
        ∨ path_contains_intermediate_components l = true) :
    best_effort_relativize_symlink c o l = some o := by
  have hcond : (c || is_relative o || is_relative l
      || path_contains_intermediate_components o
      || path_contains_intermediate_components l) = true := by
    rcases h with h | h | h | h | h <;> simp [h]
  unfold best_effort_relativize_symlink
  rw [hcond, if_pos rfl]

/-- Claim C4 witness: the specification's example, source /foo/bar/../baz
(which contains a ".." component) with destination /foo/spam/eggs, yields
the unmodified source. -/
theorem claim_C4_witness :
    path_contains_intermediate_components (parsePath "/foo/bar/../baz") = true ∧
    best_effort_relativize_symlink false (parsePath "/foo/bar/../baz")
        (parsePath "/foo/spam/eggs") = some (parsePath "/foo/bar/../baz") :=
  ⟨rfl, claim_C4_source_unchanged false (parsePath "/foo/bar/../baz")
      (parsePath "/foo/spam/eggs") (Or.inr (Or.inr (Or.inr (Or.inl rfl))))⟩

/-- Claim C5, amended: when both the parent-directory-creation step and the
main operation fail, write and symlink_dir return the recorded
directory-creation error, and symlink_file does so as well provided the
alias-creation failure is not the already-exists condition (which is
instead reclassified to success before the error-preference rule applies). -/
theorem claim_C5_prefer_dir_error :
    (∀ (rr : Option (List Nat)) (path : List String) (content : List Nat)
        (e err : IoError) (r : Except Error Unit × List FsEffect),
        write ⟨false, rr, some e, some err⟩ path content = some r →
        r.1 = Except.error (Error.Fs e)) ∧
    (∀ (c : Bool) (o l : List String) (e err : IoError) (res : Except Error Unit),
        symlink_dir c ⟨false, some e, some err⟩ o l = some res →
        res = Except.error (Error.Fs e)) ∧
    (∀ (c : Bool) (o l : List String) (e err : IoError) (res : Except Error Unit),
        err.kind ≠ ErrorKind.alreadyExists →
        symlink_file c ⟨false, some e, some err⟩ o l = some res →
        res = Except.error (Error.Fs e)) := by
  refine ⟨?_, ?_, ?_⟩
  · intro rr path content e err r h
    cases hp : parent? path with
    | none => simp [write, hp] at h
    | some pp =>
      simp [write, hp, writeOutcome] at h
      rw [← h]
  · intro c o l e err res h
    cases hb : best_effort_relativize_symlink c o l with
    | none => simp [symlink_dir, hb] at h
    | some tgt =>
      cases hp : parent? l with
      | none => simp [symlink_dir, hb, hp] at h
      | some pl =>
        simp [symlink_dir, hb, hp] at h
        exact h.symm
  · intro c o l e err res hk h
    cases hb : best_effort_relativize_symlink c o l with
    | none => simp [symlink_file, hb] at h
    | some tgt =>
      cases hp : parent? l with
      | none => simp [symlink_file, hb, hp] at h
      | some pl =>
        simp [symlink_file, hb, hp, hk] at h
        exact h.symm

/-- Claim C5 counterexample: with the destination absent, the parent
directory creation failing, and the alias primitive failing with
already-exists, symlink_file returns success rather than the recorded
directory-creation error. -/
theorem claim_C5_counterexample :
    symlink_file false
        ⟨false, some ⟨ErrorKind.otherError, 1⟩, some ⟨ErrorKind.alreadyExists, 2⟩⟩
        ["/", "x"] ["/", "y", "z"] = some (Except.ok ()) ∧
    symlink_file false
        ⟨false, some ⟨ErrorKind.otherError, 1⟩, some ⟨ErrorKind.alreadyExists, 2⟩⟩
        ["/", "x"] ["/", "y", "z"]
      ≠ some (Except.error (Error.Fs ⟨ErrorKind.otherError, 1⟩)) := by
  constructor
  · rfl
  · intro h
    exact Except.noConfusion (Option.some.inj h)

/-- Claim C5 witness: the amended theorem applied to write at a concrete
world where both create_dir_all and the write fail. -/
theorem claim_C5_witness :
    write ⟨false, none, some ⟨ErrorKind.otherError, 5⟩, some ⟨ErrorKind.otherError, 6⟩⟩
        ["/", "a", "b"] [0]
      = some (Except.error (Error.Fs ⟨ErrorKind.otherError, 5⟩),
          [FsEffect.createDir, FsEffect.writeFile]) ∧
    ((Except.error (Error.Fs ⟨ErrorKind.otherError, 5⟩) : Except Error Unit),
        [FsEffect.createDir, FsEffect.writeFile]).1
      = Except.error (Error.Fs ⟨ErrorKind.otherError, 5⟩) := by
  constructor
  · rfl
  · exact claim_C5_prefer_dir_error.1 none ["/", "a", "b"] [0]
      ⟨ErrorKind.otherError, 5⟩ ⟨ErrorKind.otherError, 6⟩
      ((Except.error (Error.Fs ⟨ErrorKind.otherError, 5⟩) : Except Error Unit),
        [FsEffect.createDir, FsEffect.writeFile]) rfl

/-- Claim C6: best_effort_remove returns only a list of attempted removal
actions (no error channel, matching the unit-returning Rust signature); on
an absent node it attempts no removal on either platform; on a symbolic
link to a directory, on the platform that classifies by the link itself
(non-Windows), it attempts exactly one file-style removal of the link, so
the target directory's contents are untouched; and its behavior on that
platform is independent of whether the removal primitives fail. -/
theorem claim_C6_best_effort_remove (rf rd rf₂ rd₂ : Bool) (n : NodeKind) :
    best_effort_remove false ⟨NodeKind.absent, rf, rd⟩ = [] ∧
    best_effort_remove true ⟨NodeKind.absent, rf, rd⟩ = [] ∧
    best_effort_remove false ⟨NodeKind.symlinkToDir, rf, rd⟩
      = [RemoveAction.removeFile] ∧
    best_effort_remove false ⟨n, rf, rd⟩ = best_effort_remove false ⟨n, rf₂, rd₂⟩ := by
  refine ⟨rfl, rfl, rfl, ?_⟩
  cases n <;> rfl

/-- Claim C7: shared_root is the longest common component prefix of the two
paths (it leads both, and every common leading segment leads it), and
whenever the shared root is empty the relativization returns the source
unchanged. -/
theorem claim_C7_shared_root_lcp (o l : List String) :
    (segPre (shared_root o l) o = true ∧ segPre (shared_root o l) l = true) ∧
    (∀ p, segPre p o = true → segPre p l = true →
      segPre p (shared_root o l) = true) ∧
    (∀ c, shared_root o l = [] →
      best_effort_relativize_symlink c o l = some o) := by
  refine ⟨⟨?_, ?_⟩, ?_, ?_⟩
  · obtain ⟨t, ht⟩ := shared_root_left o l
    exact (segPre_iff_append _ _).mpr ⟨t, ht⟩
  · obtain ⟨t, ht⟩ := shared_root_right o l
    exact (segPre_iff_append _ _).mpr ⟨t, ht⟩
  · exact fun p hp hq => shared_root_max p o l hp hq
  · intro c hsr
    unfold best_effort_relativize_symlink
    by_cases hg : (c || is_relative o || is_relative l
        || path_contains_intermediate_components o
        || path_contains_intermediate_components l) = true
    · rw [hg, if_pos rfl]
    · rw [Bool.eq_false_iff.mpr hg, if_neg (by simp), if_pos hsr]

/-- Claim C7 witness: the maximality conjunct and the empty-shared-root
conjunct at concrete paths. -/
theorem claim_C7_witness :
    segPre ["/"] (shared_root ["/", "a"] ["/", "b"]) = true ∧
    best_effort_relativize_symlink false ["a"] ["b"] = some ["a"] :=
  ⟨(claim_C7_shared_root_lcp ["/", "a"] ["/", "b"]).2.1 ["/"] rfl rfl,
   (claim_C7_shared_root_lcp ["a"] ["b"]).2.2 false rfl⟩

/-- Claim C8: an intermediate "." component in the destination string does
not change the result, because the component iterator drops it: source
/foo/bar/baz with destination /foo/spam/./eggs gives the same result as with
destination /foo/spam/eggs, namely ../bar/baz. -/
theorem claim_C8_dot_component :
    best_effort_relativize_symlink false (parsePath "/foo/bar/baz")
        (parsePath "/foo/spam/./eggs")
      = best_effort_relativize_symlink false (parsePath "/foo/bar/baz")
        (parsePath "/foo/spam/eggs") ∧
    best_effort_relativize_symlink false (parsePath "/foo/bar/baz")
        (parsePath "/foo/spam/./eggs") = some (parsePath "../bar/baz") :=
  ⟨rfl, rfl⟩

/-- Claim C9, amended: the relativization terminates without panicking (the
expect and assert never fire) for every pair of absolute paths free of ".."
components in which the destination is not a component-prefix of the source;
when the destination equals the source or is an ancestor of it, the pop-loop
assert does fire. -/
theorem claim_C9_no_panic (c : Bool) (o l : List String)
    (ho : is_absolute o = true) (hl : is_absolute l = true)
    (hdo : path_contains_intermediate_components o = false)
    (hdl : path_contains_intermediate_components l = false)
    (hnp : segPre l o = false) :
    (best_effort_relativize_symlink c o l).isSome = true := by
  cases c with
  | false =>
    obtain ⟨t_o, t_l, _, _, _, heval⟩ := relativize_branch o l ho hl hdo hdl hnp
    rw [heval]
    rfl
  | true =>
    unfold best_effort_relativize_symlink
    rw [show (true || is_relative o || is_relative l
        || path_contains_intermediate_components o
        || path_contains_intermediate_components l) = true by simp, if_pos rfl]
    rfl

/-- Claim C9 counterexample: with the destination equal to the source, and
with the destination an ancestor of the source, the function panics (the
pop loop's assert fires), for absolute ".."-free paths. -/
theorem claim_C9_counterexample :
    best_effort_relativize_symlink false ["/", "foo", "bar"] ["/", "foo", "bar"]
      = none ∧
    best_effort_relativize_symlink false ["/", "foo", "bar"] ["/", "foo"] = none :=
  ⟨rfl, rfl⟩

/-- Claim C9 witness: the amended no-panic theorem at concrete paths. -/
theorem claim_C9_witness :
    segPre ["/", "foo", "spam", "eggs"] ["/", "foo", "bar", "baz"] = false ∧
    (best_effort_relativize_symlink false ["/", "foo", "bar", "baz"]
        ["/", "foo", "spam", "eggs"]).isSome = true :=
  ⟨rfl, claim_C9_no_panic false ["/", "foo", "bar", "baz"]
      ["/", "foo", "spam", "eggs"] rfl rfl rfl rfl rfl⟩

/-- Claim C10: whenever the relativization returns a path other than the
unchanged source, joining the destination's parent directory with that
relative path and resolving the ".." components yields exactly the original
source path, so the created link resolves to the source. -/
theorem claim_C10_round_trip (o l r : List String)
    (h : best_effort_relativize_symlink false o l = some r) (hne : r ≠ o) :
    normalizeDotDot (l.dropLast ++ r) = o := by
  unfold best_effort_relativize_symlink at h
  split at h
  next hguard =>
    injection h with h1
    exact absurd h1.symm hne
  next hguard =>
    split at h
    next hsr_nil =>
      injection h with h1
      exact absurd h1.symm hne
    next hsr_ne =>
      have hdl : path_contains_intermediate_components l = false := by
        cases hx : path_contains_intermediate_components l with
        | false => rfl
        | true => exact absurd (by simp [hx]) hguard
      have hdo : path_contains_intermediate_components o = false := by
        cases hx : path_contains_intermediate_components o with
        | false => rfl
        | true => exact absurd (by simp [hx]) hguard
      cases hstrip : stripLead (shared_root o l) o with
      | none => rw [hstrip] at h; simp at h
      | some relOrig =>
        rw [hstrip] at h
        cases hpar : parent? l with
        | none => rw [hpar] at h; simp at h
        | some lp =>
          rw [hpar] at h
          have h' : (climb (shared_root o l) lp).map
              (fun n => List.replicate n ".." ++ relOrig) = some r := h
          rw [Option.map_eq_some'] at h'
          obtain ⟨n, hclimb, hr⟩ := h'
          have ho_dec : o = shared_root o l ++ relOrig :=
            (stripLead_eq_some _ _ _).mp hstrip
          obtain ⟨_hlne, _hlroot, hlp_eq⟩ := parent?_eq_some.mp hpar
          obtain ⟨t, hlp_dec, hn⟩ := climb_some_inv hclimb
          subst hr
          subst hn
          have hld : l.dropLast = shared_root o l ++ t := by
            rw [← hlp_eq]
            exact hlp_dec
          have hpcic_lp : ∀ d ∈ l.dropLast, ¬ d = ".." := fun d hd =>
            (pcic_eq_false_iff.mp hdl) d (List.dropLast_subset l hd)
          have hpcic_srt : ∀ d ∈ shared_root o l ++ t, ¬ d = ".." := by
            rw [← hld]
            exact hpcic_lp
          have hpcic_rel : ∀ d ∈ relOrig, ¬ d = ".." := by
            intro d hd
            apply (pcic_eq_false_iff.mp hdo) d
            rw [ho_dec]
            exact List.mem_append_right _ hd
          rw [hld]
          unfold normalizeDotDot
          rw [List.foldl_append, List.foldl_append,
              foldl_step_no_dd _ _ hpcic_srt, List.nil_append,
              foldl_step_replicate, foldl_step_no_dd _ _ hpcic_rel]
          exact ho_dec.symm

/-- Claim C10 witness: the round trip at source /foo/bar/baz and destination
/foo/spam/eggs, whose relative target is ../bar/baz. -/
theorem claim_C10_witness :
    best_effort_relativize_symlink false ["/", "foo", "bar", "baz"]
        ["/", "foo", "spam", "eggs"] = some ["..", "bar", "baz"] ∧
    normalizeDotDot ((["/", "foo", "spam", "eggs"] : List String).dropLast
        ++ ["..", "bar", "baz"]) = ["/", "foo", "bar", "baz"] :=
  ⟨rfl, claim_C10_round_trip ["/", "foo", "bar", "baz"] ["/", "foo", "spam", "eggs"]
      ["..", "bar", "baz"] rfl (by decide)⟩

end CxxOut
